import Mathlib

/-!
Shallow embedding of the record-reconstruction core of `src/main.py`
(umanari-line-bot-py).  Strings are modelled as `List Char`; the Python
functions `normalize_line`, `extract_marks_from_text`, `flush_pending`,
the per-line body of `parse_analysis_article`, and the double-top filter
of `find_gekiatsu` are translated definition by definition.  Machine-level
concerns (HTTP fetching, HTML soup, LINE signatures) are outside the core:
the embedding takes the already-split list of raw body lines as input,
exactly the boundary described by the source (`raw_text.splitlines()`).
-/

abbrev Str := List Char

/-- Python whitespace for `str` patterns: the set matched by `\s` in `re`
and stripped by `str.strip()` (ASCII whitespace, the C1 separators,
NEL, NBSP, and the Unicode space separators). -/
def pyWs (c : Char) : Bool :=
  c = ' ' || c = '\t' || c = '\n' || c = '\r' ||
  c.toNat = 11 || c.toNat = 12 ||
  (28 ≤ c.toNat && c.toNat ≤ 31) ||
  c.toNat = 133 || c.toNat = 160 ||
  c.toNat = 0x1680 || (0x2000 ≤ c.toNat && c.toNat ≤ 0x200A) ||
  c.toNat = 0x2028 || c.toNat = 0x2029 || c.toNat = 0x202F ||
  c.toNat = 0x205F || c.toNat = 0x3000

/-- The three character replacements of `normalize_line` (lines 80-82 of
`src/main.py`): NBSP and ideographic space become an ASCII space, the
full-width comma becomes a half-width comma.  The three `str.replace`
calls have disjoint domains and their outputs are not rewritten by the
later calls, so their composition is this single character map. -/
def replChar (c : Char) : Char :=
  if c = '\u00A0' then ' '
  else if c = '　' then ' '
  else if c = '，' then ','
  else c

/-- One pass of `re.sub(r"\s+", " ", s)`: every maximal run of whitespace
becomes a single ASCII space.  The boolean tracks whether we are inside a
run whose replacement space was already emitted. -/
def collapseWsAux : Bool → Str → Str
  | _, [] => []
  | inRun, c :: cs =>
    if pyWs c then
      if inRun then collapseWsAux true cs
      else ' ' :: collapseWsAux true cs
    else c :: collapseWsAux false cs

def collapseWs (l : Str) : Str := collapseWsAux false l

/-- Python `str.strip()`: drop whitespace from both ends. -/
def stripWs (l : Str) : Str :=
  ((l.dropWhile pyWs).reverse.dropWhile pyWs).reverse

/-- `normalize_line` (src/main.py lines 79-84): character replacements,
collapse whitespace runs to one space, strip. -/
def normalize_line (l : Str) : Str :=
  stripWs (collapseWs (l.map replChar))

/-- Membership in the fixed rating-symbol set `MARKS` (line 29). -/
def isMark (c : Char) : Bool :=
  c = '◎' || c = '○' || c = '▲' || c = '△' || c = '●'

/-- `extract_marks_from_text` (lines 192-193): the characters of the line
that are rating symbols, in left-to-right order. -/
def extract_marks_from_text (s : Str) : List Char :=
  s.filter isMark

/-- `pending_marks.extend(ms[: 2 - len(pending_marks)])`: append new
symbols up to the fixed two-slot cap. -/
def capExtend (m ms : List Char) : List Char :=
  m ++ ms.take (2 - m.length)

/-- One reconstructed horse entry, the dict appended at line 243.
The Python strings `""` for an absent mark are modelled as `none`. -/
structure Record where
  no : Nat
  name : Str
  win : Option Char
  bakusou : Option Char
deriving DecidableEq, Repr

/-- The `races` dict: an insertion-ordered association list with unique
keys, the representation of a Python dict. -/
abbrev RaceTable := List (Nat × List Record)

def lookupRace (rs : RaceTable) (n : Nat) : Option (List Record) :=
  match rs with
  | [] => none
  | (k, v) :: t => if k = n then some v else lookupRace t n

/-- `races.setdefault(n, [])`: keep an existing entry, otherwise add an
empty one at the end (dict insertion order). -/
def setdefaultRace (rs : RaceTable) (n : Nat) : RaceTable :=
  match rs with
  | [] => [(n, [])]
  | (k, v) :: t => if k = n then (k, v) :: t else (k, v) :: setdefaultRace t n

/-- `races.pop(n, None)`: remove the entry with key `n` (keys are unique). -/
def popRace (rs : RaceTable) (n : Nat) : RaceTable :=
  match rs with
  | [] => []
  | (k, v) :: t => if k = n then t else (k, v) :: popRace t n

/-- `races[n].append(rec)`: append to the entry with key `n`.  The Python
subscript presupposes the key is present, which the parser guarantees
(the key is created by `setdefault` whenever `current_r` is set); on an
absent key this model leaves the table unchanged. -/
def appendRace (rs : RaceTable) (n : Nat) (rec : Record) : RaceTable :=
  match rs with
  | [] => []
  | (k, v) :: t => if k = n then (k, v ++ [rec]) :: t else (k, v) :: appendRace t n rec

/-- The mutable parser state of `parse_analysis_article` (lines 217-222). -/
structure PState where
  races : RaceTable
  current_r : Option Nat
  pending_no : Option Nat
  pending_name_parts : List Str
  pending_marks : List Char
deriving DecidableEq, Repr

def initState : PState := ⟨[], none, none, [], []⟩

/-- `" ".join(parts)`. -/
def joinSp (parts : List Str) : Str :=
  List.intercalate [' '] parts

/-- `flush_pending` (lines 224-247), translated branch by branch: with no
open section the buffers are cleared; with no buffered number nothing at
all happens; an empty reassembled name discards the pending record
silently; otherwise the record is appended to the open section with the
first two seen marks. -/
def flush_pending (st : PState) : PState :=
  match st.current_r with
  | none => { st with pending_no := none, pending_name_parts := [], pending_marks := [] }
  | some r =>
    match st.pending_no with
    | none => st
    | some no =>
      let name := normalize_line (joinSp st.pending_name_parts)
      if name = [] then
        { st with pending_no := none, pending_name_parts := [], pending_marks := [] }
      else
        { st with
          races := appendRace st.races r
            ⟨no, name, st.pending_marks.head?, st.pending_marks[1]?⟩,
          pending_no := none, pending_name_parts := [], pending_marks := [] }

/-- Start of every aligned block of ten consecutive Unicode decimal
digits (general category Nd).  Generated by matching `\d` against every
code point with CPython 3.11 (Unicode 14.0.0): a `str`-pattern `\d`
matches exactly the union of these blocks, and each block carries the
digit values 0..9 in order (the value `int()` assigns). -/
def ndBlocks : List Nat :=
  [48, 1632, 1776, 1984, 2406, 2534, 2662, 2790, 2918, 3046, 3174,
    3302, 3430, 3558, 3664, 3792, 3872, 4160, 4240, 6112, 6160, 6470,
    6608, 6784, 6800, 6992, 7088, 7232, 7248, 42528, 43216, 43264,
    43472, 43504, 43600, 44016, 65296, 66720, 68912, 69734, 69872,
    69942, 70096, 70384, 70736, 70864, 71248, 71360, 71472, 71904,
    72016, 72784, 73040, 73120, 92768, 92864, 93008, 120782, 120792,
    120802, 120812, 120822, 123200, 123632, 125264, 130032]

/-- Python `\d` for `str` patterns: the Unicode Nd decimal digits. -/
def isDigitPy (c : Char) : Bool :=
  ndBlocks.any (fun b => b ≤ c.toNat && c.toNat ≤ b + 9)

/-- The decimal value of an Nd digit, as `int()` reads it. -/
def digitVal (c : Char) : Nat :=
  match ndBlocks.find? (fun b => b ≤ c.toNat && c.toNat ≤ b + 9) with
  | some b => c.toNat - b
  | none => 0

/-- `int(line)` on a digit string. -/
def digitsToNat (l : Str) : Nat :=
  l.foldl (fun a c => a * 10 + digitVal c) 0

/-- `re.fullmatch(r"\d{1,2}", line)` (line 272). -/
def isDigitsLine (l : Str) : Bool :=
  (l.length = 1 || l.length = 2) && l.all isDigitPy

/-- Maximal ranges of Python word characters: `\w` in a `str` pattern
(Unicode alphanumerics plus the underscore).  Generated by matching
`\w` against every code point with CPython 3.11 (Unicode 14.0.0).
Used only for the `\b` after `R` in the section-header pattern. -/
def wordRanges : List (Nat × Nat) :=
  [(48, 57), (65, 90), (95, 95), (97, 122), (170, 170), (178, 179),
    (181, 181), (185, 186), (188, 190), (192, 214), (216, 246),
    (248, 705), (710, 721), (736, 740), (748, 748), (750, 750),
    (880, 884), (886, 887), (890, 893), (895, 895), (902, 902),
    (904, 906), (908, 908), (910, 929), (931, 1013), (1015, 1153),
    (1162, 1327), (1329, 1366), (1369, 1369), (1376, 1416),
    (1488, 1514), (1519, 1522), (1568, 1610), (1632, 1641),
    (1646, 1647), (1649, 1747), (1749, 1749), (1765, 1766),
    (1774, 1788), (1791, 1791), (1808, 1808), (1810, 1839),
    (1869, 1957), (1969, 1969), (1984, 2026), (2036, 2037),
    (2042, 2042), (2048, 2069), (2074, 2074), (2084, 2084),
    (2088, 2088), (2112, 2136), (2144, 2154), (2160, 2183),
    (2185, 2190), (2208, 2249), (2308, 2361), (2365, 2365),
    (2384, 2384), (2392, 2401), (2406, 2415), (2417, 2432),
    (2437, 2444), (2447, 2448), (2451, 2472), (2474, 2480),
    (2482, 2482), (2486, 2489), (2493, 2493), (2510, 2510),
    (2524, 2525), (2527, 2529), (2534, 2545), (2548, 2553),
    (2556, 2556), (2565, 2570), (2575, 2576), (2579, 2600),
    (2602, 2608), (2610, 2611), (2613, 2614), (2616, 2617),
    (2649, 2652), (2654, 2654), (2662, 2671), (2674, 2676),
    (2693, 2701), (2703, 2705), (2707, 2728), (2730, 2736),
    (2738, 2739), (2741, 2745), (2749, 2749), (2768, 2768),
    (2784, 2785), (2790, 2799), (2809, 2809), (2821, 2828),
    (2831, 2832), (2835, 2856), (2858, 2864), (2866, 2867),
    (2869, 2873), (2877, 2877), (2908, 2909), (2911, 2913),
    (2918, 2927), (2929, 2935), (2947, 2947), (2949, 2954),
    (2958, 2960), (2962, 2965), (2969, 2970), (2972, 2972),
    (2974, 2975), (2979, 2980), (2984, 2986), (2990, 3001),
    (3024, 3024), (3046, 3058), (3077, 3084), (3086, 3088),
    (3090, 3112), (3114, 3129), (3133, 3133), (3160, 3162),
    (3165, 3165), (3168, 3169), (3174, 3183), (3192, 3198),
    (3200, 3200), (3205, 3212), (3214, 3216), (3218, 3240),
    (3242, 3251), (3253, 3257), (3261, 3261), (3293, 3294),
    (3296, 3297), (3302, 3311), (3313, 3314), (3332, 3340),
    (3342, 3344), (3346, 3386), (3389, 3389), (3406, 3406),
    (3412, 3414), (3416, 3425), (3430, 3448), (3450, 3455),
    (3461, 3478), (3482, 3505), (3507, 3515), (3517, 3517),
    (3520, 3526), (3558, 3567), (3585, 3632), (3634, 3635),
    (3648, 3654), (3664, 3673), (3713, 3714), (3716, 3716),
    (3718, 3722), (3724, 3747), (3749, 3749), (3751, 3760),
    (3762, 3763), (3773, 3773), (3776, 3780), (3782, 3782),
    (3792, 3801), (3804, 3807), (3840, 3840), (3872, 3891),
    (3904, 3911), (3913, 3948), (3976, 3980), (4096, 4138),
    (4159, 4169), (4176, 4181), (4186, 4189), (4193, 4193),
    (4197, 4198), (4206, 4208), (4213, 4225), (4238, 4238),
    (4240, 4249), (4256, 4293), (4295, 4295), (4301, 4301),
    (4304, 4346), (4348, 4680), (4682, 4685), (4688, 4694),
    (4696, 4696), (4698, 4701), (4704, 4744), (4746, 4749),
    (4752, 4784), (4786, 4789), (4792, 4798), (4800, 4800),
    (4802, 4805), (4808, 4822), (4824, 4880), (4882, 4885),
    (4888, 4954), (4969, 4988), (4992, 5007), (5024, 5109),
    (5112, 5117), (5121, 5740), (5743, 5759), (5761, 5786),
    (5792, 5866), (5870, 5880), (5888, 5905), (5919, 5937),
    (5952, 5969), (5984, 5996), (5998, 6000), (6016, 6067),
    (6103, 6103), (6108, 6108), (6112, 6121), (6128, 6137),
    (6160, 6169), (6176, 6264), (6272, 6276), (6279, 6312),
    (6314, 6314), (6320, 6389), (6400, 6430), (6470, 6509),
    (6512, 6516), (6528, 6571), (6576, 6601), (6608, 6618),
    (6656, 6678), (6688, 6740), (6784, 6793), (6800, 6809),
    (6823, 6823), (6917, 6963), (6981, 6988), (6992, 7001),
    (7043, 7072), (7086, 7141), (7168, 7203), (7232, 7241),
    (7245, 7293), (7296, 7304), (7312, 7354), (7357, 7359),
    (7401, 7404), (7406, 7411), (7413, 7414), (7418, 7418),
    (7424, 7615), (7680, 7957), (7960, 7965), (7968, 8005),
    (8008, 8013), (8016, 8023), (8025, 8025), (8027, 8027),
    (8029, 8029), (8031, 8061), (8064, 8116), (8118, 8124),
    (8126, 8126), (8130, 8132), (8134, 8140), (8144, 8147),
    (8150, 8155), (8160, 8172), (8178, 8180), (8182, 8188),
    (8304, 8305), (8308, 8313), (8319, 8329), (8336, 8348),
    (8450, 8450), (8455, 8455), (8458, 8467), (8469, 8469),
    (8473, 8477), (8484, 8484), (8486, 8486), (8488, 8488),
    (8490, 8493), (8495, 8505), (8508, 8511), (8517, 8521),
    (8526, 8526), (8528, 8585), (9312, 9371), (9450, 9471),
    (10102, 10131), (11264, 11492), (11499, 11502), (11506, 11507),
    (11517, 11517), (11520, 11557), (11559, 11559), (11565, 11565),
    (11568, 11623), (11631, 11631), (11648, 11670), (11680, 11686),
    (11688, 11694), (11696, 11702), (11704, 11710), (11712, 11718),
    (11720, 11726), (11728, 11734), (11736, 11742), (11823, 11823),
    (12293, 12295), (12321, 12329), (12337, 12341), (12344, 12348),
    (12353, 12438), (12445, 12447), (12449, 12538), (12540, 12543),
    (12549, 12591), (12593, 12686), (12690, 12693), (12704, 12735),
    (12784, 12799), (12832, 12841), (12872, 12879), (12881, 12895),
    (12928, 12937), (12977, 12991), (13312, 19903), (19968, 42124),
    (42192, 42237), (42240, 42508), (42512, 42539), (42560, 42606),
    (42623, 42653), (42656, 42735), (42775, 42783), (42786, 42888),
    (42891, 42954), (42960, 42961), (42963, 42963), (42965, 42969),
    (42994, 43009), (43011, 43013), (43015, 43018), (43020, 43042),
    (43056, 43061), (43072, 43123), (43138, 43187), (43216, 43225),
    (43250, 43255), (43259, 43259), (43261, 43262), (43264, 43301),
    (43312, 43334), (43360, 43388), (43396, 43442), (43471, 43481),
    (43488, 43492), (43494, 43518), (43520, 43560), (43584, 43586),
    (43588, 43595), (43600, 43609), (43616, 43638), (43642, 43642),
    (43646, 43695), (43697, 43697), (43701, 43702), (43705, 43709),
    (43712, 43712), (43714, 43714), (43739, 43741), (43744, 43754),
    (43762, 43764), (43777, 43782), (43785, 43790), (43793, 43798),
    (43808, 43814), (43816, 43822), (43824, 43866), (43868, 43881),
    (43888, 44002), (44016, 44025), (44032, 55203), (55216, 55238),
    (55243, 55291), (63744, 64109), (64112, 64217), (64256, 64262),
    (64275, 64279), (64285, 64285), (64287, 64296), (64298, 64310),
    (64312, 64316), (64318, 64318), (64320, 64321), (64323, 64324),
    (64326, 64433), (64467, 64829), (64848, 64911), (64914, 64967),
    (65008, 65019), (65136, 65140), (65142, 65276), (65296, 65305),
    (65313, 65338), (65345, 65370), (65382, 65470), (65474, 65479),
    (65482, 65487), (65490, 65495), (65498, 65500), (65536, 65547),
    (65549, 65574), (65576, 65594), (65596, 65597), (65599, 65613),
    (65616, 65629), (65664, 65786), (65799, 65843), (65856, 65912),
    (65930, 65931), (66176, 66204), (66208, 66256), (66273, 66299),
    (66304, 66339), (66349, 66378), (66384, 66421), (66432, 66461),
    (66464, 66499), (66504, 66511), (66513, 66517), (66560, 66717),
    (66720, 66729), (66736, 66771), (66776, 66811), (66816, 66855),
    (66864, 66915), (66928, 66938), (66940, 66954), (66956, 66962),
    (66964, 66965), (66967, 66977), (66979, 66993), (66995, 67001),
    (67003, 67004), (67072, 67382), (67392, 67413), (67424, 67431),
    (67456, 67461), (67463, 67504), (67506, 67514), (67584, 67589),
    (67592, 67592), (67594, 67637), (67639, 67640), (67644, 67644),
    (67647, 67669), (67672, 67702), (67705, 67742), (67751, 67759),
    (67808, 67826), (67828, 67829), (67835, 67867), (67872, 67897),
    (67968, 68023), (68028, 68047), (68050, 68096), (68112, 68115),
    (68117, 68119), (68121, 68149), (68160, 68168), (68192, 68222),
    (68224, 68255), (68288, 68295), (68297, 68324), (68331, 68335),
    (68352, 68405), (68416, 68437), (68440, 68466), (68472, 68497),
    (68521, 68527), (68608, 68680), (68736, 68786), (68800, 68850),
    (68858, 68899), (68912, 68921), (69216, 69246), (69248, 69289),
    (69296, 69297), (69376, 69415), (69424, 69445), (69457, 69460),
    (69488, 69505), (69552, 69579), (69600, 69622), (69635, 69687),
    (69714, 69743), (69745, 69746), (69749, 69749), (69763, 69807),
    (69840, 69864), (69872, 69881), (69891, 69926), (69942, 69951),
    (69956, 69956), (69959, 69959), (69968, 70002), (70006, 70006),
    (70019, 70066), (70081, 70084), (70096, 70106), (70108, 70108),
    (70113, 70132), (70144, 70161), (70163, 70187), (70272, 70278),
    (70280, 70280), (70282, 70285), (70287, 70301), (70303, 70312),
    (70320, 70366), (70384, 70393), (70405, 70412), (70415, 70416),
    (70419, 70440), (70442, 70448), (70450, 70451), (70453, 70457),
    (70461, 70461), (70480, 70480), (70493, 70497), (70656, 70708),
    (70727, 70730), (70736, 70745), (70751, 70753), (70784, 70831),
    (70852, 70853), (70855, 70855), (70864, 70873), (71040, 71086),
    (71128, 71131), (71168, 71215), (71236, 71236), (71248, 71257),
    (71296, 71338), (71352, 71352), (71360, 71369), (71424, 71450),
    (71472, 71483), (71488, 71494), (71680, 71723), (71840, 71922),
    (71935, 71942), (71945, 71945), (71948, 71955), (71957, 71958),
    (71960, 71983), (71999, 71999), (72001, 72001), (72016, 72025),
    (72096, 72103), (72106, 72144), (72161, 72161), (72163, 72163),
    (72192, 72192), (72203, 72242), (72250, 72250), (72272, 72272),
    (72284, 72329), (72349, 72349), (72368, 72440), (72704, 72712),
    (72714, 72750), (72768, 72768), (72784, 72812), (72818, 72847),
    (72960, 72966), (72968, 72969), (72971, 73008), (73030, 73030),
    (73040, 73049), (73056, 73061), (73063, 73064), (73066, 73097),
    (73112, 73112), (73120, 73129), (73440, 73458), (73648, 73648),
    (73664, 73684), (73728, 74649), (74752, 74862), (74880, 75075),
    (77712, 77808), (77824, 78894), (82944, 83526), (92160, 92728),
    (92736, 92766), (92768, 92777), (92784, 92862), (92864, 92873),
    (92880, 92909), (92928, 92975), (92992, 92995), (93008, 93017),
    (93019, 93025), (93027, 93047), (93053, 93071), (93760, 93846),
    (93952, 94026), (94032, 94032), (94099, 94111), (94176, 94177),
    (94179, 94179), (94208, 100343), (100352, 101589), (101632, 101640),
    (110576, 110579), (110581, 110587), (110589, 110590),
    (110592, 110882), (110928, 110930), (110948, 110951),
    (110960, 111355), (113664, 113770), (113776, 113788),
    (113792, 113800), (113808, 113817), (119520, 119539),
    (119648, 119672), (119808, 119892), (119894, 119964),
    (119966, 119967), (119970, 119970), (119973, 119974),
    (119977, 119980), (119982, 119993), (119995, 119995),
    (119997, 120003), (120005, 120069), (120071, 120074),
    (120077, 120084), (120086, 120092), (120094, 120121),
    (120123, 120126), (120128, 120132), (120134, 120134),
    (120138, 120144), (120146, 120485), (120488, 120512),
    (120514, 120538), (120540, 120570), (120572, 120596),
    (120598, 120628), (120630, 120654), (120656, 120686),
    (120688, 120712), (120714, 120744), (120746, 120770),
    (120772, 120779), (120782, 120831), (122624, 122654),
    (123136, 123180), (123191, 123197), (123200, 123209),
    (123214, 123214), (123536, 123565), (123584, 123627),
    (123632, 123641), (124896, 124902), (124904, 124907),
    (124909, 124910), (124912, 124926), (124928, 125124),
    (125127, 125135), (125184, 125251), (125259, 125259),
    (125264, 125273), (126065, 126123), (126125, 126127),
    (126129, 126132), (126209, 126253), (126255, 126269),
    (126464, 126467), (126469, 126495), (126497, 126498),
    (126500, 126500), (126503, 126503), (126505, 126514),
    (126516, 126519), (126521, 126521), (126523, 126523),
    (126530, 126530), (126535, 126535), (126537, 126537),
    (126539, 126539), (126541, 126543), (126545, 126546),
    (126548, 126548), (126551, 126551), (126553, 126553),
    (126555, 126555), (126557, 126557), (126559, 126559),
    (126561, 126562), (126564, 126564), (126567, 126570),
    (126572, 126578), (126580, 126583), (126585, 126588),
    (126590, 126590), (126592, 126601), (126603, 126619),
    (126625, 126627), (126629, 126633), (126635, 126651),
    (127232, 127244), (130032, 130041), (131072, 173791),
    (173824, 177976), (177984, 178205), (178208, 183969),
    (183984, 191456), (194560, 195101), (196608, 201546)]

/-- Python `\w` for `str` patterns, by table lookup. -/
def isWordCharPy (c : Char) : Bool :=
  wordRanges.any (fun p => p.1 ≤ c.toNat && c.toNat ≤ p.2)

/-- Match a literal leading pattern, returning the remainder
(`re.escape(track)` makes the track token literal in the pattern). -/
def dropLead : Str → Str → Option Str
  | [], l => some l
  | _ :: _, [] => none
  | a :: ps, b :: ls => if a = b then dropLead ps ls else none

/-- The `\s*R\b` tail of the section-header pattern. -/
def expectR (t : Str) : Bool :=
  match t.dropWhile pyWs with
  | 'R' :: rest =>
    match rest with
    | [] => true
    | c :: _ => !isWordCharPy c
  | _ => false

/-- `sec_re.match(line)` for `sec_re = ^<track>\s*(\d{1,2})\s*R\b`
(line 215), returning the captured race number.  `\d{1,2}` is greedy;
when two digits are available and `\s*R` fails after them, backtracking
to one digit cannot succeed either (the next character is the second
digit, which is neither whitespace nor `R`), so no backtracking is
modelled here. -/
def secMatch (track : Str) (line : Str) : Option Nat :=
  match dropLead track line with
  | none => none
  | some t1 =>
    match t1.dropWhile pyWs with
    | [] => none
    | c1 :: r1 =>
      if isDigitPy c1 then
        match r1 with
        | [] => if expectR [] then some (digitVal c1) else none
        | c2 :: r2 =>
          if isDigitPy c2 then
            if expectR r2 then some (digitVal c1 * 10 + digitVal c2) else none
          else if expectR r1 then some (digitVal c1) else none
      else none

/-- The `\s*(.+)$` tail after the optional comma of the number pattern:
greedy whitespace, backtracking so that `.+` still gets at least one
character.  When the remainder is all whitespace the star gives one
character back and `.+` captures the last character. -/
def tailAfterWs (v : Str) : Option Str :=
  let w := v.dropWhile pyWs
  if w.isEmpty then
    match v.getLast? with
    | some c => some [c]
    | none => none
  else some w

/-- The `\s*,?\s*(.+)$` part of the number pattern after the first
whitespace run was consumed: take the optional comma greedily, giving it
back when nothing would remain for `.+`. -/
def sepRestAux (u : Str) : Option Str :=
  match u with
  | ',' :: v =>
    match tailAfterWs v with
    | some r => some r
    | none => some [',']
  | _ => tailAfterWs u

/-- `\s*,?\s*(.+)$` applied to the text after the leading digits. -/
def sepRest (t : Str) : Option Str :=
  match sepRestAux (t.dropWhile pyWs) with
  | some r => some r
  | none =>
    match t.getLast? with
    | some c => some [c]
    | none => none

/-- `re.match(r"^(\d{1,2})\s*,?\s*(.+)$", line)` (line 277): the leading
one-or-two-digit number and the captured rest.  `\d{1,2}` is greedy but
backtracks from two digits to one when nothing would remain for `.+`
(a purely two-digit line, unreachable after the full-match case). -/
def numRestMatch (line : Str) : Option (Nat × Str) :=
  match line with
  | [] => none
  | c1 :: r1 =>
    if isDigitPy c1 then
      match r1 with
      | [] => none
      | c2 :: r2 =>
        if isDigitPy c2 then
          match sepRest r2 with
          | some r => some (digitVal c1 * 10 + digitVal c2, r)
          | none =>
            match sepRest r1 with
            | some r => some (digitVal c1, r)
            | none => none
        else
          match sepRest r1 with
          | some r => some (digitVal c1, r)
          | none => none
    else none

/-- Substring test: `pat` occurs at the start of `l`. -/
def leadMatch : Str → Str → Bool
  | [], _ => true
  | _ :: _, [] => false
  | a :: ps, b :: ls => a = b && leadMatch ps ls

/-- Python `pat in line`: substring containment. -/
def hasSeq (pat : Str) : Str → Bool
  | [] => pat.isEmpty
  | c :: t => leadMatch pat (c :: t) || hasSeq pat t

/-- The insufficiency-marker phrase of line 261. -/
def insufMarker : Str :=
  ['デ', 'ー', 'タ', '不', '足', 'の', '為', '解', '析', '不', '可']

/-- The column-header noise line of line 269. -/
def headerNoise : Str :=
  ['馬', '名', ' ', '勝', '率', ' ', '爆', '走']

/-- The branch for a number-bearing line (lines 277-290): flush, set the
new pending number, extract marks from the stripped rest, and keep the
symbol-stripped remainder as the first name fragment when non-empty. -/
def startRecord (st1 : PState) (no : Nat) (rest0 : Str) : PState :=
  let rest := stripWs rest0
  let ms := extract_marks_from_text rest
  if ms.isEmpty then
    { st1 with pending_no := some no,
               pending_name_parts := st1.pending_name_parts ++ [rest] }
  else
    let marks2 := capExtend st1.pending_marks ms
    let rest2 := stripWs (rest.filter (fun c => !(isMark c)))
    if rest2.isEmpty then
      { st1 with pending_no := some no, pending_marks := marks2 }
    else
      { st1 with pending_no := some no, pending_marks := marks2,
                 pending_name_parts := st1.pending_name_parts ++ [rest2] }

/-- The continuation branches guarded by `pending_no is not None`
(lines 292-307): a symbols-only line extends the marks, a mixed line
extends the marks and appends the symbol-stripped remainder as a name
fragment when non-empty, a symbol-free line is a whole name fragment;
with no pending number the line is discarded as noise. -/
def contLine (st : PState) (line : Str) : PState :=
  match st.pending_no with
  | none => st
  | some _ =>
    let ms := extract_marks_from_text line
    if ms.isEmpty then
      { st with pending_name_parts := st.pending_name_parts ++ [line] }
    else if normalize_line (line.filter isMark)
            = normalize_line (line.filter (fun c => !(c = ' '))) then
      { st with pending_marks := capExtend st.pending_marks ms }
    else
      let namePart := stripWs (line.filter (fun c => !(isMark c)))
      if namePart.isEmpty then
        { st with pending_marks := capExtend st.pending_marks ms }
      else
        { st with pending_marks := capExtend st.pending_marks ms,
                  pending_name_parts := st.pending_name_parts ++ [namePart] }

/-- One iteration of the `for line in lines` loop (lines 249-307), in the
source's branch order: section header, no-open-section guard,
insufficiency marker, column-header noise, pure digit line, number-plus-
rest line, continuation. -/
def stepLine (track : Str) (st : PState) (line : Str) : PState :=
  match secMatch track line with
  | some n =>
    let st1 := if st.current_r.isSome then flush_pending st else st
    { st1 with current_r := some n, races := setdefaultRace st1.races n }
  | none =>
    match st.current_r with
    | none => st
    | some r =>
      if hasSeq insufMarker line then
        ⟨popRace st.races r, none, none, [], []⟩
      else if line = headerNoise then st
      else if isDigitsLine line then
        let st1 := flush_pending st
        { st1 with pending_no := some (digitsToNat line) }
      else
        match numRestMatch line with
        | some (no, rest0) => startRecord (flush_pending st) no rest0
        | none => contLine st line

/-- `parse_analysis_article` (lines 197-312) from the point where the
body text has been split into raw lines: normalize, drop empties, run
the loop, final flush, return the race table. -/
def parse_analysis_article (track : Str) (rawLines : List Str) : RaceTable :=
  let lines := (rawLines.map normalize_line).filter (fun l => !l.isEmpty)
  let st := lines.foldl (stepLine track) initState
  let st2 := if st.current_r.isSome then flush_pending st else st
  st2.races

/-- One hit of `find_gekiatsu`: a race number and the horses whose two
marks are both the top symbol. -/
structure HitRace where
  race_no : Nat
  horses : List (Nat × Str)
deriving DecidableEq, Repr

/-- The inner filter of `find_gekiatsu` (lines 432-436): the horses of a
race whose win mark and burst mark are both `◎`. -/
def gekiatsuRows (rows : List Record) : List (Nat × Str) :=
  rows.filterMap (fun r =>
    if r.win = some '◎' ∧ r.bakusou = some '◎' then some (r.no, r.name) else none)

/-- Stable insertion into a list sorted by race number, placing the new
element before later elements with the same key, as Python's stable
`list.sort` does. -/
def insertByNo (h : HitRace) : List HitRace → List HitRace
  | [] => [h]
  | x :: t => if x.race_no < h.race_no then x :: insertByNo h t else h :: x :: t

def sortHits : List HitRace → List HitRace
  | [] => []
  | h :: t => insertByNo h (sortHits t)

/-- The per-track body of `find_gekiatsu` (lines 431-441): collect the
races with at least one double-top horse, then sort by race number. -/
def find_gekiatsu_hits (races : RaceTable) : List HitRace :=
  let hits := races.filterMap (fun p =>
    let horses := gekiatsuRows p.2
    if horses.isEmpty then none else some ⟨p.1, horses⟩)
  sortHits hits

/-- `CACHE_TTL` (line 35). -/
def CACHE_TTL : Nat := 5 * 60

/-- `get_umanari` (lines 315-325) with its only mutable collaborator, the
module-level TTL cache, made explicit: the cache entry for the one
relevant key is threaded in and out, time is a parameter, and the network
fetch is replaced by the already-fetched body lines (the claim under test
fixes the body text across invocations). -/
def get_umanari_model (now : Nat) (cache : Option (Nat × RaceTable))
    (track : Str) (rawLines : List Str) : RaceTable × Option (Nat × RaceTable) :=
  match cache with
  | some (ts, d) =>
    if now - ts > CACHE_TTL then
      let d2 := parse_analysis_article track rawLines
      (d2, some (now, d2))
    else (d, some (ts, d))
  | none =>
    let d := parse_analysis_article track rawLines
    (d, some (now, d))

/-- Adjacent characters are not both whitespace. -/
def WsRel (a b : Char) : Prop := ¬(pyWs a = true ∧ pyWs b = true)

theorem mem_collapseWsAux {c : Char} :
    ∀ (b : Bool) (l : Str), c ∈ collapseWsAux b l → c = ' ' ∨ (c ∈ l ∧ pyWs c = false) := by
  intro b l
  induction l generalizing b with
  | nil => intro h; simp [collapseWsAux] at h
  | cons d t ih =>
    intro h
    by_cases hd : pyWs d
    · cases b with
      | true =>
        simp only [collapseWsAux, hd, if_true] at h
        rcases ih true h with h1 | ⟨h2, h3⟩
        · exact Or.inl h1
        · exact Or.inr ⟨List.mem_cons_of_mem _ h2, h3⟩
      | false =>
        simp only [collapseWsAux, hd, if_true] at h
        rcases List.mem_cons.mp h with h1 | h1
        · exact Or.inl h1
        · rcases ih true h1 with h2 | ⟨h2, h3⟩
          · exact Or.inl h2
          · exact Or.inr ⟨List.mem_cons_of_mem _ h2, h3⟩
    · simp only [collapseWsAux, hd, if_false] at h
      rcases List.mem_cons.mp h with h1 | h1
      · subst h1; exact Or.inr ⟨List.mem_cons_self _ _, by simpa using hd⟩
      · rcases ih false h1 with h2 | ⟨h2, h3⟩
        · exact Or.inl h2
        · exact Or.inr ⟨List.mem_cons_of_mem _ h2, h3⟩

theorem collapseWsAux_true_head :
    ∀ (l : Str) (d : Char) (ds : Str), collapseWsAux true l = d :: ds → pyWs d = false := by
  intro l
  induction l with
  | nil => intro d ds h; simp [collapseWsAux] at h
  | cons c t ih =>
    intro d ds h
    by_cases hc : pyWs c
    · simp only [collapseWsAux, hc, if_true] at h
      exact ih d ds h
    · simp only [collapseWsAux, hc, if_false] at h
      cases h
      simpa using hc

theorem chain_collapseWsAux :
    ∀ (b : Bool) (l : Str), List.Chain' WsRel (collapseWsAux b l) := by
  intro b l
  induction l generalizing b with
  | nil => simp [collapseWsAux]
  | cons c t ih =>
    by_cases hc : pyWs c
    · cases b with
      | true => simpa only [collapseWsAux, hc, if_true] using ih true
      | false =>
        simp only [collapseWsAux, hc, if_true]
        refine List.chain'_cons'.mpr ⟨?_, ih true⟩
        intro y hy
        have hhd : collapseWsAux true t = y :: (collapseWsAux true t).tail := by
          cases hcc : collapseWsAux true t with
          | nil => simp [hcc] at hy
          | cons a u => simp [hcc] at hy; simp [hy]
        have := collapseWsAux_true_head t y _ hhd
        intro hcontra
        rw [this] at hcontra
        exact Bool.false_ne_true hcontra.2
    · simp only [collapseWsAux, hc, if_false]
      refine List.chain'_cons'.mpr ⟨?_, ih false⟩
      intro y hy
      intro hcontra
      rw [hcontra.1] at hc
      exact hc rfl

theorem collapseWs_fix :
    ∀ (l : Str), (∀ c ∈ l, pyWs c = true → c = ' ') → List.Chain' WsRel l →
      collapseWs l = l := by
  intro l
  induction l with
  | nil => intro _ _; rfl
  | cons c t ih =>
    intro hcanon hchain
    have hchain' := (List.chain'_cons'.mp hchain).2
    have hrel := (List.chain'_cons'.mp hchain).1
    by_cases hc : pyWs c
    · have hcsp : c = ' ' := hcanon c (List.mem_cons_self _ _) hc
      have htail : collapseWs t = t :=
        ih (fun d hd => hcanon d (List.mem_cons_of_mem _ hd)) hchain'
      cases t with
      | nil => simp [collapseWs, collapseWsAux, hc, hcsp]
      | cons d u =>
        have hd : pyWs d = false := by
          have := hrel d (by simp)
          by_contra hcon
          exact this ⟨hc, by simpa using hcon⟩
        simp only [collapseWs, collapseWsAux, hc, if_true, hd, Bool.false_eq_true,
          if_false, hcsp] at htail ⊢
        simpa using htail
    · have htail : collapseWs t = t :=
        ih (fun d hd => hcanon d (List.mem_cons_of_mem _ hd)) hchain'
      simp only [collapseWs, collapseWsAux, hc, Bool.false_eq_true, if_false] at htail ⊢
      simpa using htail

theorem mem_stripWs {c : Char} {l : Str} (h : c ∈ stripWs l) : c ∈ l := by
  unfold stripWs at h
  rw [List.mem_reverse] at h
  have h1 := (List.dropWhile_sublist pyWs).subset h
  rw [List.mem_reverse] at h1
  exact (List.dropWhile_sublist pyWs).subset h1

theorem chain_stripWs {l : Str} (h : List.Chain' WsRel l) :
    List.Chain' WsRel (stripWs l) := by
  unfold stripWs
  have h1 : List.Chain' WsRel (l.dropWhile pyWs) :=
    h.suffix ⟨l.takeWhile pyWs, List.takeWhile_append_dropWhile pyWs l⟩
  have h2 : List.Chain' (flip WsRel) (l.dropWhile pyWs).reverse := by
    rw [List.chain'_reverse]
    exact h1.imp (fun a b hab => hab)
  have h3 : List.Chain' (flip WsRel) ((l.dropWhile pyWs).reverse.dropWhile pyWs) :=
    h2.suffix ⟨_, List.takeWhile_append_dropWhile pyWs _⟩
  rw [List.chain'_reverse]
  exact h3.imp (fun a b hab => hab)

theorem dropWhile_of_head {p : Char → Bool} {l : Str}
    (h : ∀ d, l.head? = some d → p d = false) : l.dropWhile p = l := by
  cases l with
  | nil => rfl
  | cons c t =>
    have := h c rfl
    simp [List.dropWhile_cons, this]

theorem head_dropWhile {p : Char → Bool} (l : Str) :
    ∀ d, (l.dropWhile p).head? = some d → p d = false := by
  intro d h
  have := List.head?_dropWhile_not p l
  rw [h] at this
  exact this

theorem getLast?_dropWhile {p : Char → Bool} (l : Str) (h : l.dropWhile p ≠ []) :
    (l.dropWhile p).getLast? = l.getLast? := by
  have hsome : (l.dropWhile p).getLast?.isSome := by
    rw [List.getLast?_isSome]
    exact h
  conv_rhs => rw [← List.takeWhile_append_dropWhile p l]
  rw [List.getLast?_append, Option.or_of_isSome hsome]

theorem stripWs_idem (l : Str) : stripWs (stripWs l) = stripWs l := by
  unfold stripWs
  have hstep1 : (((l.dropWhile pyWs).reverse.dropWhile pyWs).reverse).dropWhile pyWs
      = ((l.dropWhile pyWs).reverse.dropWhile pyWs).reverse := by
    apply dropWhile_of_head
    intro d hd
    rw [List.head?_reverse] at hd
    have hne : (l.dropWhile pyWs).reverse.dropWhile pyWs ≠ [] := by
      intro hcon
      rw [hcon] at hd
      simp at hd
    rw [getLast?_dropWhile _ hne, List.getLast?_reverse] at hd
    exact head_dropWhile l d hd
  rw [hstep1, List.reverse_reverse]
  have hstep2 : ((l.dropWhile pyWs).reverse.dropWhile pyWs).dropWhile pyWs
      = (l.dropWhile pyWs).reverse.dropWhile pyWs := by
    apply dropWhile_of_head
    intro d hd
    exact head_dropWhile _ d hd
  rw [hstep2]

theorem replChar_sp : replChar ' ' = ' ' := by decide

theorem replChar_of_ne {c : Char} (h1 : ¬c = '\u00A0') (h2 : ¬c = '　') (h3 : ¬c = '，') :
    replChar c = c := by
  unfold replChar
  rw [if_neg h1, if_neg h2, if_neg h3]

theorem replChar_idem (c : Char) : replChar (replChar c) = replChar c := by
  by_cases h1 : c = '\u00A0'
  · subst h1; decide
  · by_cases h2 : c = '　'
    · subst h2; decide
    · by_cases h3 : c = '，'
      · subst h3; decide
      · rw [replChar_of_ne h1 h2 h3, replChar_of_ne h1 h2 h3]

theorem map_id_of_fix {f : Char → Char} :
    ∀ (l : Str), (∀ c ∈ l, f c = c) → l.map f = l := by
  intro l
  induction l with
  | nil => intro _; rfl
  | cons c t ih =>
    intro h
    simp only [List.map_cons]
    rw [h c (List.mem_cons_self _ _), ih (fun d hd => h d (List.mem_cons_of_mem _ hd))]

theorem normalize_line_mem {c : Char} {s : Str} (h : c ∈ normalize_line s) :
    c = ' ' ∨ (c ∈ s.map replChar ∧ pyWs c = false) := by
  unfold normalize_line at h
  exact mem_collapseWsAux false _ (mem_stripWs h)

theorem normalize_line_repl_fix (s : Str) :
    ∀ c ∈ normalize_line s, replChar c = c := by
  intro c hc
  rcases normalize_line_mem hc with h | ⟨h, _⟩
  · subst h; decide
  · rcases List.mem_map.mp h with ⟨d, _, hd⟩
    rw [← hd]
    exact replChar_idem d

theorem normalize_line_ws_sp (s : Str) :
    ∀ c ∈ normalize_line s, pyWs c = true → c = ' ' := by
  intro c hc hws
  rcases normalize_line_mem hc with h | ⟨_, h⟩
  · exact h
  · rw [h] at hws
    exact absurd hws (by simp)

theorem normalize_line_chain (s : Str) : List.Chain' WsRel (normalize_line s) := by
  unfold normalize_line
  exact chain_stripWs (chain_collapseWsAux false _)

theorem stripWs_normalize_line (s : Str) : stripWs (normalize_line s) = normalize_line s := by
  unfold normalize_line
  exact stripWs_idem _

theorem normalize_line_idem (s : Str) :
    normalize_line (normalize_line s) = normalize_line s := by
  conv_lhs => rw [normalize_line]
  rw [map_id_of_fix (normalize_line s) (normalize_line_repl_fix s)]
  rw [collapseWs_fix (normalize_line s) (normalize_line_ws_sp s) (normalize_line_chain s)]
  exact stripWs_normalize_line s

theorem count_collapseWsAux (x : Char) (hx : pyWs x = false) (hx2 : ¬ x = ' ') :
    ∀ (b : Bool) (l : Str), (collapseWsAux b l).count x = l.count x := by
  intro b l
  induction l generalizing b with
  | nil => cases b <;> rfl
  | cons c t ih =>
    by_cases hc : pyWs c
    · have hcx : ¬ x = c := by
        intro h
        rw [← h, hx] at hc
        exact Bool.false_ne_true hc
      have hsx : ¬ x = ' ' := hx2
      cases b with
      | true =>
        have e : collapseWsAux true (c :: t) = collapseWsAux true t := by
          simp [collapseWsAux, hc]
        rw [e, ih true, List.count_cons_of_ne hcx]
      | false =>
        have e : collapseWsAux false (c :: t) = ' ' :: collapseWsAux true t := by
          simp [collapseWsAux, hc]
        rw [e, List.count_cons_of_ne hsx, List.count_cons_of_ne hcx, ih true]
    · have e : collapseWsAux b (c :: t) = c :: collapseWsAux false t := by
        cases b <;> simp [collapseWsAux, hc]
      rw [e, List.count_cons, List.count_cons, ih false]

theorem count_dropWhile (p : Char → Bool) (x : Char) (hx : p x = false) (l : Str) :
    (l.dropWhile p).count x = l.count x := by
  conv_rhs => rw [← List.takeWhile_append_dropWhile p l]
  rw [List.count_append]
  have hzero : (l.takeWhile p).count x = 0 := by
    rw [List.count_eq_zero]
    intro hmem
    have := List.mem_takeWhile_imp hmem
    rw [hx] at this
    exact Bool.false_ne_true this
  omega

theorem count_stripWs (x : Char) (hx : pyWs x = false) (l : Str) :
    (stripWs l).count x = l.count x := by
  unfold stripWs
  rw [List.count_reverse, count_dropWhile pyWs x hx, List.count_reverse,
    count_dropWhile pyWs x hx]

theorem count_map_repl (s : Str) :
    ¬ '，' ∈ s.map replChar
    ∧ (s.map replChar).count '。' = s.count '。'
    ∧ (s.map replChar).count ',' = s.count ',' + s.count '，' := by
  induction s with
  | nil => refine ⟨by simp, rfl, rfl⟩
  | cons c t ih =>
    obtain ⟨ih1, ih2, ih3⟩ := ih
    have hcases : c = '\u00A0' ∨ c = '　' ∨ c = '，' ∨
        (replChar c = c ∧ ¬ c = '，') := by
      by_cases h1 : c = '\u00A0'
      · exact Or.inl h1
      · by_cases h2 : c = '　'
        · exact Or.inr (Or.inl h2)
        · by_cases h3 : c = '，'
          · exact Or.inr (Or.inr (Or.inl h3))
          · exact Or.inr (Or.inr (Or.inr ⟨replChar_of_ne h1 h2 h3, h3⟩))
    refine ⟨?_, ?_, ?_⟩
    · intro hmem
      rcases List.mem_cons.mp hmem with h | h
      · rcases hcases with h0 | h0 | h0 | ⟨h0, h4⟩
        · subst h0; exact absurd h (by decide)
        · subst h0; exact absurd h (by decide)
        · subst h0; exact absurd h (by decide)
        · rw [h0] at h
          exact h4 h.symm
      · exact ih1 h
    · simp only [List.map_cons]
      rcases hcases with h0 | h0 | h0 | ⟨h0, h4⟩
      · subst h0
        rw [show replChar '\u00A0' = ' ' from by decide,
          List.count_cons_of_ne (by decide), List.count_cons_of_ne (by decide), ih2]
      · subst h0
        rw [show replChar '　' = ' ' from by decide,
          List.count_cons_of_ne (by decide), List.count_cons_of_ne (by decide), ih2]
      · subst h0
        rw [show replChar '，' = ',' from by decide,
          List.count_cons_of_ne (by decide), List.count_cons_of_ne (by decide), ih2]
      · rw [h0, List.count_cons, List.count_cons, ih2]
    · simp only [List.map_cons]
      rcases hcases with h0 | h0 | h0 | ⟨h0, h4⟩
      · subst h0
        rw [show replChar '\u00A0' = ' ' from by decide,
          List.count_cons_of_ne (by decide), List.count_cons_of_ne (by decide),
          List.count_cons_of_ne (by decide), ih3]
      · subst h0
        rw [show replChar '　' = ' ' from by decide,
          List.count_cons_of_ne (by decide), List.count_cons_of_ne (by decide),
          List.count_cons_of_ne (by decide), ih3]
      · subst h0
        rw [show replChar '，' = ',' from by decide,
          List.count_cons_self, List.count_cons_of_ne (by decide),
          List.count_cons_self, ih3]
        omega
      · rw [h0, List.count_cons, List.count_cons,
          List.count_cons_of_ne (fun h => h4 h.symm), ih3]
        omega

theorem lookupRace_mem {rs : RaceTable} {n : Nat} {v : List Record}
    (h : lookupRace rs n = some v) : (n, v) ∈ rs := by
  induction rs with
  | nil => simp [lookupRace] at h
  | cons p t ih =>
    obtain ⟨k, w⟩ := p
    by_cases hk : k = n
    · subst hk
      simp only [lookupRace, if_pos rfl] at h
      cases h
      exact List.mem_cons_self _ _
    · simp only [lookupRace, if_neg hk] at h
      exact List.mem_cons_of_mem _ (ih h)

theorem mem_setdefaultRace {rs : RaceTable} {n : Nat} {p : Nat × List Record}
    (h : p ∈ setdefaultRace rs n) : p ∈ rs ∨ p = (n, []) := by
  induction rs with
  | nil =>
    simp only [setdefaultRace] at h
    rcases List.mem_singleton.mp h with h1
    exact Or.inr h1
  | cons q t ih =>
    obtain ⟨k, w⟩ := q
    by_cases hk : k = n
    · simp only [setdefaultRace, if_pos hk] at h
      exact Or.inl h
    · simp only [setdefaultRace, if_neg hk] at h
      rcases List.mem_cons.mp h with h1 | h1
      · exact Or.inl (by rw [h1]; exact List.mem_cons_self _ _)
      · rcases ih h1 with h2 | h2
        · exact Or.inl (List.mem_cons_of_mem _ h2)
        · exact Or.inr h2

theorem mem_popRace {rs : RaceTable} {n : Nat} {p : Nat × List Record}
    (h : p ∈ popRace rs n) : p ∈ rs := by
  induction rs with
  | nil => simp [popRace] at h
  | cons q t ih =>
    obtain ⟨k, w⟩ := q
    by_cases hk : k = n
    · simp only [popRace, if_pos hk] at h
      exact List.mem_cons_of_mem _ h
    · simp only [popRace, if_neg hk] at h
      rcases List.mem_cons.mp h with h1 | h1
      · exact (by rw [h1]; exact List.mem_cons_self _ _)
      · exact List.mem_cons_of_mem _ (ih h1)

theorem mem_appendRace {rs : RaceTable} {n : Nat} {rec : Record} {p : Nat × List Record}
    (h : p ∈ appendRace rs n rec) :
    p ∈ rs ∨ ∃ v, (n, v) ∈ rs ∧ p = (n, v ++ [rec]) := by
  induction rs with
  | nil => simp [appendRace] at h
  | cons q t ih =>
    obtain ⟨k, w⟩ := q
    by_cases hk : k = n
    · subst hk
      simp only [appendRace, if_pos rfl] at h
      rcases List.mem_cons.mp h with h1 | h1
      · exact Or.inr ⟨w, List.mem_cons_self _ _, h1⟩
      · exact Or.inl (List.mem_cons_of_mem _ h1)
    · simp only [appendRace, if_neg hk] at h
      rcases List.mem_cons.mp h with h1 | h1
      · exact Or.inl (by rw [h1]; exact List.mem_cons_self _ _)
      · rcases ih h1 with h2 | ⟨v, h2, h3⟩
        · exact Or.inl (List.mem_cons_of_mem _ h2)
        · exact Or.inr ⟨v, List.mem_cons_of_mem _ h2, h3⟩

theorem lookup_setdefaultRace_ne {rs : RaceTable} {k n : Nat} (hk : ¬ k = n) :
    lookupRace (setdefaultRace rs k) n = lookupRace rs n := by
  induction rs with
  | nil => simp [setdefaultRace, lookupRace, if_neg hk]
  | cons q t ih =>
    obtain ⟨k2, w⟩ := q
    by_cases hk2 : k2 = k
    · simp only [setdefaultRace, if_pos hk2]
    · simp only [setdefaultRace, if_neg hk2]
      by_cases hk2n : k2 = n
      · simp only [lookupRace, if_pos hk2n]
      · simp only [lookupRace, if_neg hk2n, ih]

theorem setdefaultRace_of_some {rs : RaceTable} {n : Nat} {v : List Record}
    (h : lookupRace rs n = some v) : setdefaultRace rs n = rs := by
  induction rs with
  | nil => simp [lookupRace] at h
  | cons q t ih =>
    obtain ⟨k, w⟩ := q
    by_cases hk : k = n
    · simp [setdefaultRace, if_pos hk]
    · simp only [lookupRace, if_neg hk] at h
      simp [setdefaultRace, if_neg hk, ih h]

theorem lookup_appendRace_ne {rs : RaceTable} {k n : Nat} {rec : Record} (hk : ¬ k = n) :
    lookupRace (appendRace rs k rec) n = lookupRace rs n := by
  induction rs with
  | nil => simp [appendRace, lookupRace]
  | cons q t ih =>
    obtain ⟨k2, w⟩ := q
    by_cases hk2 : k2 = k
    · subst hk2
      simp only [appendRace, if_pos rfl]
      simp only [lookupRace, if_neg hk]
    · simp only [appendRace, if_neg hk2]
      by_cases hk2n : k2 = n
      · simp only [lookupRace, if_pos hk2n]
      · simp only [lookupRace, if_neg hk2n, ih]

theorem lookup_appendRace_self {rs : RaceTable} {n : Nat} {v : List Record} {rec : Record}
    (h : lookupRace rs n = some v) :
    lookupRace (appendRace rs n rec) n = some (v ++ [rec]) := by
  induction rs with
  | nil => simp [lookupRace] at h
  | cons q t ih =>
    obtain ⟨k, w⟩ := q
    by_cases hk : k = n
    · subst hk
      simp only [lookupRace, if_pos rfl] at h
      cases h
      simp [appendRace, lookupRace]
    · simp only [lookupRace, if_neg hk] at h
      simp only [appendRace, if_neg hk, lookupRace, if_neg hk]
      exact ih h

theorem lookup_none_appendRace {rs : RaceTable} {k n : Nat} {rec : Record}
    (h : lookupRace rs n = none) :
    lookupRace (appendRace rs k rec) n = none := by
  induction rs with
  | nil => simp [appendRace, lookupRace]
  | cons q t ih =>
    obtain ⟨k2, w⟩ := q
    by_cases hk2n : k2 = n
    · simp [lookupRace, if_pos hk2n] at h
    · simp only [lookupRace, if_neg hk2n] at h
      by_cases hk2 : k2 = k
      · simp only [appendRace, if_pos hk2, lookupRace, if_neg hk2n]
        exact h
      · simp only [appendRace, if_neg hk2, lookupRace, if_neg hk2n]
        exact ih h

theorem lookup_none_popRace {rs : RaceTable} {k n : Nat}
    (h : lookupRace rs n = none) :
    lookupRace (popRace rs k) n = none := by
  induction rs with
  | nil => simp [popRace, lookupRace]
  | cons q t ih =>
    obtain ⟨k2, w⟩ := q
    by_cases hk2n : k2 = n
    · simp [lookupRace, if_pos hk2n] at h
    · simp only [lookupRace, if_neg hk2n] at h
      by_cases hk2 : k2 = k
      · simp only [popRace, if_pos hk2]
        exact h
      · simp only [popRace, if_neg hk2, lookupRace, if_neg hk2n]
        exact ih h

theorem lookup_none_setdefaultRace {rs : RaceTable} {k n : Nat} (hk : ¬ k = n)
    (h : lookupRace rs n = none) :
    lookupRace (setdefaultRace rs k) n = none := by
  rw [lookup_setdefaultRace_ne hk]
  exact h

theorem lookup_popRace_self {rs : RaceTable} {n : Nat}
    (hnd : (rs.map Prod.fst).Nodup) :
    lookupRace (popRace rs n) n = none := by
  induction rs with
  | nil => rfl
  | cons q t ih =>
    obtain ⟨k, w⟩ := q
    simp only [List.map_cons, List.nodup_cons] at hnd
    by_cases hk : k = n
    · subst hk
      simp only [popRace, if_pos rfl]
      cases hl : lookupRace t k with
      | none => exact hl
      | some v =>
        exact absurd (List.mem_map_of_mem Prod.fst (lookupRace_mem hl)) hnd.1
    · simp only [popRace, if_neg hk, lookupRace, if_neg hk]
      exact ih hnd.2

theorem flush_pending_eq_no_open {st : PState} (hc : st.current_r = none) :
    flush_pending st =
      { st with pending_no := none, pending_name_parts := [], pending_marks := [] } := by
  unfold flush_pending
  rw [hc]

theorem flush_pending_eq_no_pending {st : PState} {r : Nat} (hc : st.current_r = some r)
    (hp : st.pending_no = none) : flush_pending st = st := by
  unfold flush_pending
  rw [hc, hp]

theorem flush_pending_eq_name_empty {st : PState} {r no : Nat} (hc : st.current_r = some r)
    (hp : st.pending_no = some no)
    (hname : normalize_line (joinSp st.pending_name_parts) = []) :
    flush_pending st =
      { st with pending_no := none, pending_name_parts := [], pending_marks := [] } := by
  unfold flush_pending
  rw [hc, hp]
  simp [hname]

theorem flush_pending_eq_emit {st : PState} {r no : Nat} (hc : st.current_r = some r)
    (hp : st.pending_no = some no)
    (hname : ¬ normalize_line (joinSp st.pending_name_parts) = []) :
    flush_pending st =
      { st with
        races := appendRace st.races r
          ⟨no, normalize_line (joinSp st.pending_name_parts),
           st.pending_marks.head?, st.pending_marks[1]?⟩,
        pending_no := none, pending_name_parts := [], pending_marks := [] } := by
  unfold flush_pending
  rw [hc, hp]
  simp [hname]

theorem flush_pending_current_r (st : PState) : (flush_pending st).current_r = st.current_r := by
  cases hc : st.current_r with
  | none => rw [flush_pending_eq_no_open hc]; exact hc
  | some r =>
    cases hp : st.pending_no with
    | none => rw [flush_pending_eq_no_pending hc hp]; exact hc
    | some no =>
      by_cases hname : normalize_line (joinSp st.pending_name_parts) = []
      · rw [flush_pending_eq_name_empty hc hp hname]; exact hc
      · rw [flush_pending_eq_emit hc hp hname]; exact hc

theorem flush_pending_pending_no (st : PState) : (flush_pending st).pending_no = none := by
  cases hc : st.current_r with
  | none => rw [flush_pending_eq_no_open hc]
  | some r =>
    cases hp : st.pending_no with
    | none => rw [flush_pending_eq_no_pending hc hp]; exact hp
    | some no =>
      by_cases hname : normalize_line (joinSp st.pending_name_parts) = []
      · rw [flush_pending_eq_name_empty hc hp hname]
      · rw [flush_pending_eq_emit hc hp hname]

theorem flush_pending_races_of_no_none {st : PState} (h : st.pending_no = none) :
    (flush_pending st).races = st.races := by
  cases hc : st.current_r with
  | none => rw [flush_pending_eq_no_open hc]
  | some r => rw [flush_pending_eq_no_pending hc h]

theorem flush_pending_races_of_name_empty {st : PState} {no : Nat}
    (h1 : st.pending_no = some no)
    (h2 : normalize_line (joinSp st.pending_name_parts) = []) :
    (flush_pending st).races = st.races := by
  cases hc : st.current_r with
  | none => rw [flush_pending_eq_no_open hc]
  | some r => rw [flush_pending_eq_name_empty hc h1 h2]

theorem flush_pending_races_cases (st : PState) :
    (flush_pending st).races = st.races
    ∨ ∃ r no, st.current_r = some r ∧ st.pending_no = some no
        ∧ ¬ normalize_line (joinSp st.pending_name_parts) = []
        ∧ (flush_pending st).races = appendRace st.races r
            ⟨no, normalize_line (joinSp st.pending_name_parts),
             st.pending_marks.head?, st.pending_marks[1]?⟩ := by
  cases hc : st.current_r with
  | none => exact Or.inl (by rw [flush_pending_eq_no_open hc])
  | some r =>
    cases hp : st.pending_no with
    | none => exact Or.inl (by rw [flush_pending_eq_no_pending hc hp])
    | some no =>
      by_cases hname : normalize_line (joinSp st.pending_name_parts) = []
      · exact Or.inl (by rw [flush_pending_eq_name_empty hc hp hname])
      · exact Or.inr ⟨r, no, rfl, rfl, hname,
          by rw [flush_pending_eq_emit hc hp hname]⟩

theorem flush_pending_names {st : PState}
    (h : ∀ p ∈ st.races, ∀ rec ∈ p.2, ¬ rec.name = []) :
    ∀ p ∈ (flush_pending st).races, ∀ rec ∈ p.2, ¬ rec.name = [] := by
  rcases flush_pending_races_cases st with he | ⟨r, no, _, _, hname, he⟩
  · rw [he]; exact h
  · rw [he]
    intro p hp rec hrec
    rcases mem_appendRace hp with h1 | ⟨v, h1, h2⟩
    · exact h p h1 rec hrec
    · rw [h2] at hrec
      rcases List.mem_append.mp hrec with h3 | h3
      · exact h (r, v) h1 rec h3
      · rw [List.mem_singleton.mp h3]
        exact hname

theorem flush_pending_lookup_none {st : PState} {n : Nat}
    (h1 : lookupRace st.races n = none) :
    lookupRace (flush_pending st).races n = none := by
  rcases flush_pending_races_cases st with he | ⟨r, no, _, _, _, he⟩
  · rw [he]; exact h1
  · rw [he]
    exact lookup_none_appendRace h1

theorem stepLine_eq_header {track : Str} {st : PState} {line : Str} {n : Nat}
    (h : secMatch track line = some n) :
    stepLine track st line =
      { (if st.current_r.isSome then flush_pending st else st) with
        current_r := some n,
        races := setdefaultRace
          (if st.current_r.isSome then flush_pending st else st).races n } := by
  unfold stepLine
  rw [h]

theorem stepLine_eq_noopen {track : Str} {st : PState} {line : Str}
    (hsec : secMatch track line = none) (hc : st.current_r = none) :
    stepLine track st line = st := by
  unfold stepLine
  rw [hsec, hc]

theorem stepLine_eq_marker {track : Str} {st : PState} {line : Str} {r : Nat}
    (hsec : secMatch track line = none) (hc : st.current_r = some r)
    (hm : hasSeq insufMarker line = true) :
    stepLine track st line = ⟨popRace st.races r, none, none, [], []⟩ := by
  unfold stepLine
  rw [hsec, hc, hm]
  rfl

theorem stepLine_eq_headerNoise {track : Str} {st : PState} {line : Str} {r : Nat}
    (hsec : secMatch track line = none) (hc : st.current_r = some r)
    (hm : hasSeq insufMarker line = false) (hh : line = headerNoise) :
    stepLine track st line = st := by
  unfold stepLine
  rw [hsec, hc, hm, if_pos hh]
  rfl

theorem stepLine_eq_digits {track : Str} {st : PState} {line : Str} {r : Nat}
    (hsec : secMatch track line = none) (hc : st.current_r = some r)
    (hm : hasSeq insufMarker line = false) (hh : ¬ line = headerNoise)
    (hd : isDigitsLine line = true) :
    stepLine track st line =
      { flush_pending st with pending_no := some (digitsToNat line) } := by
  unfold stepLine
  rw [hsec, hc, hm, if_neg hh, hd]
  rfl

theorem stepLine_eq_numRest {track : Str} {st : PState} {line : Str} {r no : Nat} {rest : Str}
    (hsec : secMatch track line = none) (hc : st.current_r = some r)
    (hm : hasSeq insufMarker line = false) (hh : ¬ line = headerNoise)
    (hd : isDigitsLine line = false) (hnum : numRestMatch line = some (no, rest)) :
    stepLine track st line = startRecord (flush_pending st) no rest := by
  unfold stepLine
  rw [hsec, hc, hm, hd, if_neg hh, hnum]
  rfl

theorem stepLine_eq_cont {track : Str} {st : PState} {line : Str} {r : Nat}
    (hsec : secMatch track line = none) (hc : st.current_r = some r)
    (hm : hasSeq insufMarker line = false) (hh : ¬ line = headerNoise)
    (hd : isDigitsLine line = false) (hnum : numRestMatch line = none) :
    stepLine track st line = contLine st line := by
  unfold stepLine
  rw [hsec, hc, hm, hd, if_neg hh, hnum]
  rfl

theorem contLine_frame (st : PState) (line : Str) :
    (contLine st line).races = st.races
    ∧ (contLine st line).current_r = st.current_r
    ∧ (contLine st line).pending_no = st.pending_no := by
  unfold contLine
  cases hp : st.pending_no with
  | none => exact ⟨rfl, rfl, hp⟩
  | some no =>
    refine ⟨?_, ?_, ?_⟩ <;> (dsimp only; split_ifs <;> rfl)

theorem startRecord_frame (st1 : PState) (no : Nat) (rest0 : Str) :
    (startRecord st1 no rest0).races = st1.races
    ∧ (startRecord st1 no rest0).current_r = st1.current_r
    ∧ (startRecord st1 no rest0).pending_no = some no := by
  unfold startRecord
  refine ⟨?_, ?_, ?_⟩ <;> (dsimp only; split_ifs <;> rfl)

theorem stepLine_names {track : Str} {st : PState} {line : Str}
    (h : ∀ p ∈ st.races, ∀ rec ∈ p.2, ¬ rec.name = []) :
    ∀ p ∈ (stepLine track st line).races, ∀ rec ∈ p.2, ¬ rec.name = [] := by
  cases hsec : secMatch track line with
  | some n =>
    rw [stepLine_eq_header hsec]
    intro p hp
    rcases mem_setdefaultRace hp with h1 | h1
    · by_cases hc : st.current_r.isSome
      · rw [if_pos hc] at h1
        exact flush_pending_names h p h1
      · rw [if_neg hc] at h1
        exact h p h1
    · rw [h1]
      intro rec hrec
      simp at hrec
  | none =>
    cases hc : st.current_r with
    | none =>
      rw [stepLine_eq_noopen hsec hc]
      exact h
    | some r =>
      by_cases hm : hasSeq insufMarker line = true
      · rw [stepLine_eq_marker hsec hc hm]
        intro p hp rec hrec
        exact h p (mem_popRace hp) rec hrec
      · have hm2 : hasSeq insufMarker line = false := by
          simpa using hm
        by_cases hh : line = headerNoise
        · rw [stepLine_eq_headerNoise hsec hc hm2 hh]
          exact h
        · by_cases hd : isDigitsLine line = true
          · rw [stepLine_eq_digits hsec hc hm2 hh hd]
            exact flush_pending_names h
          · have hd2 : isDigitsLine line = false := by
              simpa using hd
            cases hnum : numRestMatch line with
            | some p0 =>
              obtain ⟨no, rest⟩ := p0
              rw [stepLine_eq_numRest hsec hc hm2 hh hd2 hnum]
              intro p hp
              have he := (startRecord_frame (flush_pending st) no rest).1
              rw [he] at hp
              exact flush_pending_names h p hp
            | none =>
              rw [stepLine_eq_cont hsec hc hm2 hh hd2 hnum]
              intro p hp
              have he := (contLine_frame st line).1
              rw [he] at hp
              exact h p hp

theorem foldl_stepLine_names (track : Str) (lines : List Str) :
    ∀ st : PState, (∀ p ∈ st.races, ∀ rec ∈ p.2, ¬ rec.name = []) →
      ∀ p ∈ (List.foldl (stepLine track) st lines).races, ∀ rec ∈ p.2, ¬ rec.name = [] := by
  induction lines with
  | nil => intro st h; exact h
  | cons l t ih =>
    intro st h
    exact ih _ (stepLine_names h)

theorem parse_names (track : Str) (rawLines : List Str) :
    ∀ p ∈ (parse_analysis_article track rawLines), ∀ rec ∈ p.2, ¬ rec.name = [] := by
  unfold parse_analysis_article
  dsimp only
  have hfold := foldl_stepLine_names track
    ((rawLines.map normalize_line).filter (fun l => !l.isEmpty)) initState
    (by intro p hp; simp [initState] at hp)
  by_cases hc : (List.foldl (stepLine track)
      initState ((rawLines.map normalize_line).filter (fun l => !l.isEmpty))).current_r.isSome = true
  · rw [if_pos hc]
    exact flush_pending_names hfold
  · rw [if_neg hc]
    exact hfold

theorem stepLine_absent {track : Str} {st : PState} {line : Str} {n : Nat}
    (hsec : ¬ secMatch track line = some n)
    (h1 : lookupRace st.races n = none)
    (h2 : ¬ st.current_r = some n) :
    lookupRace (stepLine track st line).races n = none
    ∧ ¬ (stepLine track st line).current_r = some n := by
  cases hs : secMatch track line with
  | some m =>
    have hm : ¬ m = n := by
      intro h
      rw [h] at hs
      exact hsec hs
    rw [stepLine_eq_header hs]
    constructor
    · by_cases hc : st.current_r.isSome = true
      · rw [if_pos hc]
        exact lookup_none_setdefaultRace hm (flush_pending_lookup_none h1)
      · rw [if_neg hc]
        exact lookup_none_setdefaultRace hm h1
    · intro hcon
      have : m = n := by
        simpa using hcon
      exact hm this
  | none =>
    cases hc : st.current_r with
    | none =>
      rw [stepLine_eq_noopen hs hc]
      exact ⟨h1, by rw [hc]; simp⟩
    | some r =>
      have hrn : ¬ r = n := by
        intro h
        rw [h] at hc
        exact h2 hc
      by_cases hm : hasSeq insufMarker line = true
      · rw [stepLine_eq_marker hs hc hm]
        exact ⟨lookup_none_popRace h1, by simp⟩
      · have hm2 : hasSeq insufMarker line = false := by simpa using hm
        by_cases hh : line = headerNoise
        · rw [stepLine_eq_headerNoise hs hc hm2 hh]
          exact ⟨h1, h2⟩
        · by_cases hd : isDigitsLine line = true
          · rw [stepLine_eq_digits hs hc hm2 hh hd]
            refine ⟨flush_pending_lookup_none h1, ?_⟩
            intro hcon
            have : (flush_pending st).current_r = some n := hcon
            rw [flush_pending_current_r st] at this
            exact h2 this
          · have hd2 : isDigitsLine line = false := by simpa using hd
            cases hnum : numRestMatch line with
            | some p0 =>
              obtain ⟨no, rest⟩ := p0
              rw [stepLine_eq_numRest hs hc hm2 hh hd2 hnum]
              obtain ⟨he1, he2, _⟩ := startRecord_frame (flush_pending st) no rest
              refine ⟨?_, ?_⟩
              · rw [he1]
                exact flush_pending_lookup_none h1
              · intro hcon
                rw [he2, flush_pending_current_r st] at hcon
                exact h2 hcon
            | none =>
              rw [stepLine_eq_cont hs hc hm2 hh hd2 hnum]
              obtain ⟨he1, he2, _⟩ := contLine_frame st line
              refine ⟨?_, ?_⟩
              · rw [he1]
                exact h1
              · intro hcon
                rw [he2] at hcon
                exact h2 hcon

theorem foldl_absent (track : Str) (lines : List Str) :
    ∀ (st : PState) (n : Nat), (∀ l ∈ lines, ¬ secMatch track l = some n) →
      lookupRace st.races n = none → ¬ st.current_r = some n →
      lookupRace (List.foldl (stepLine track) st lines).races n = none
      ∧ ¬ (List.foldl (stepLine track) st lines).current_r = some n := by
  induction lines with
  | nil => intro st n _ h1 h2; exact ⟨h1, h2⟩
  | cons l t ih =>
    intro st n hl h1 h2
    obtain ⟨g1, g2⟩ := stepLine_absent (hl l (List.mem_cons_self _ _)) h1 h2
    exact ih _ n (fun x hx => hl x (List.mem_cons_of_mem _ hx)) g1 g2

theorem capExtend_eq_take {m ms : List Char} (h : m.length ≤ 2) :
    capExtend m ms = (m ++ ms).take 2 := by
  unfold capExtend
  rw [List.take_append_eq_append_take, List.take_of_length_le h]

theorem capExtend_length {m ms : List Char} (h : m.length ≤ 2) :
    (capExtend m ms).length ≤ 2 := by
  rw [capExtend_eq_take h]
  simp

theorem take_two_absorb (x y : List Char) :
    ((x.take 2) ++ y).take 2 = (x ++ y).take 2 := by
  match x with
  | [] => rfl
  | [a] => rfl
  | a :: b :: t => simp

theorem contLine_marks {st : PState} {line : Str} {no : Nat}
    (hp : st.pending_no = some no) :
    (contLine st line).pending_marks
      = capExtend st.pending_marks (extract_marks_from_text line) := by
  unfold contLine
  rw [hp]
  dsimp only
  split_ifs with h1 h2 h3
  · rw [List.isEmpty_iff] at h1
    simp [capExtend, h1]
  · rfl
  · rfl
  · rfl

theorem foldl_cont_marks (track : Str) (ls : List Str) :
    ∀ (st : PState) (r no : Nat), st.current_r = some r → st.pending_no = some no →
      st.pending_marks.length ≤ 2 →
      (∀ l ∈ ls, secMatch track l = none ∧ hasSeq insufMarker l = false ∧
        ¬ l = headerNoise ∧ isDigitsLine l = false ∧ numRestMatch l = none) →
      (List.foldl (stepLine track) st ls).pending_marks
          = (st.pending_marks ++ ls.flatMap extract_marks_from_text).take 2
      ∧ (List.foldl (stepLine track) st ls).pending_no = some no
      ∧ (List.foldl (stepLine track) st ls).current_r = some r
      ∧ (List.foldl (stepLine track) st ls).races = st.races := by
  induction ls with
  | nil =>
    intro st r no hr hno hlen _
    refine ⟨?_, hno, hr, rfl⟩
    simp [List.take_of_length_le hlen]
  | cons l t ih =>
    intro st r no hr hno hlen hl
    obtain ⟨hsec, hm, hh, hd, hnum⟩ := hl l (List.mem_cons_self _ _)
    have hstep : stepLine track st l = contLine st l :=
      stepLine_eq_cont hsec hr hm hh hd hnum
    obtain ⟨hf1, hf2, hf3⟩ := contLine_frame st l
    have hmarks : (contLine st l).pending_marks
        = capExtend st.pending_marks (extract_marks_from_text l) := contLine_marks hno
    have hlen2 : (contLine st l).pending_marks.length ≤ 2 := by
      rw [hmarks]
      exact capExtend_length hlen
    have hr2 : (contLine st l).current_r = some r := by rw [hf2, hr]
    have hno2 : (contLine st l).pending_no = some no := by rw [hf3, hno]
    obtain ⟨g1, g2, g3, g4⟩ := ih (contLine st l) r no hr2 hno2 hlen2
      (fun x hx => hl x (List.mem_cons_of_mem _ hx))
    simp only [List.foldl_cons, hstep]
    refine ⟨?_, g2, g3, by rw [g4, hf1]⟩
    rw [g1, hmarks, capExtend_eq_take hlen, take_two_absorb, List.flatMap_cons,
      List.append_assoc]

theorem mem_insertByNo {x h : HitRace} {t : List HitRace} :
    x ∈ insertByNo h t ↔ x = h ∨ x ∈ t := by
  induction t with
  | nil => simp [insertByNo]
  | cons y u ih =>
    unfold insertByNo
    by_cases hc : y.race_no < h.race_no
    · rw [if_pos hc]
      rw [List.mem_cons, ih, List.mem_cons]
      tauto
    · rw [if_neg hc]
      rw [List.mem_cons, List.mem_cons]

theorem mem_sortHits {x : HitRace} {l : List HitRace} :
    x ∈ sortHits l ↔ x ∈ l := by
  induction l with
  | nil => simp [sortHits]
  | cons h t ih =>
    unfold sortHits
    rw [mem_insertByNo, ih, List.mem_cons]

/-- Claim C4, counterexample: the Line Normalizer does not map the
full-width period to a half-width period — `normalize_line` on the
one-character string `。` returns it unchanged, not `.`, while the
full-width comma is indeed mapped. -/
theorem c4_counterexample :
    normalize_line ['。'] = ['。'] ∧ ¬ normalize_line ['。'] = ['.']
    ∧ normalize_line ['，'] = [','] := by
  exact ⟨by decide, by decide, by decide⟩

/-- Claim C4, amended: for every input string the Line Normalizer maps
the full-width comma `，` to the half-width comma (no `，` survives, and
every occurrence adds one to the count of `,`), but it leaves the
full-width period `。` unchanged (its count is preserved, it is never
turned into `.`). -/
theorem c4_comma_mapped_period_kept (s : Str) :
    ¬ '，' ∈ normalize_line s
    ∧ (normalize_line s).count '。' = s.count '。'
    ∧ (normalize_line s).count ',' = s.count ',' + s.count '，' := by
  obtain ⟨h1, h2, h3⟩ := count_map_repl s
  have hws1 : pyWs '。' = false := by decide
  have hws2 : pyWs ',' = false := by decide
  have hne1 : ¬ ('。' : Char) = ' ' := by decide
  have hne2 : ¬ (',' : Char) = ' ' := by decide
  refine ⟨?_, ?_, ?_⟩
  · intro hmem
    rcases normalize_line_mem hmem with h | ⟨h, _⟩
    · exact absurd h (by decide)
    · exact h1 h
  · unfold normalize_line collapseWs
    rw [count_stripWs '。' hws1, count_collapseWsAux '。' hws1 hne1 false, h2]
  · unfold normalize_line collapseWs
    rw [count_stripWs ',' hws2, count_collapseWsAux ',' hws2 hne2 false, h3]

/-- Witness for claim C4's amended theorem at a concrete input. -/
theorem c4_comma_mapped_period_kept_witness :
    ¬ '，' ∈ normalize_line ['a', '，', '。']
    ∧ (normalize_line ['a', '，', '。']).count '。'
        = (['a', '，', '。'] : Str).count '。' := by
  exact ⟨(c4_comma_mapped_period_kept ['a', '，', '。']).1,
    (c4_comma_mapped_period_kept ['a', '，', '。']).2.1⟩

/-- Claim C5: the Line Normalizer is idempotent, and its output never
contains two adjacent whitespace characters (no whitespace run longer
than one). -/
theorem c5_normalize_idempotent_no_runs (s : Str) :
    normalize_line (normalize_line s) = normalize_line s
    ∧ ∀ (i : Nat) (h : i + 1 < (normalize_line s).length),
        ¬ (pyWs ((normalize_line s).get ⟨i, by omega⟩) = true
           ∧ pyWs ((normalize_line s).get ⟨i + 1, h⟩) = true) := by
  refine ⟨normalize_line_idem s, ?_⟩
  intro i h
  have hchain := normalize_line_chain s
  have := List.chain'_iff_get.mp hchain i (by omega)
  exact this

/-- Witness for claim C5 at a concrete input with whitespace to collapse. -/
theorem c5_normalize_idempotent_no_runs_witness :
    normalize_line (normalize_line [' ', 'a', ' ', ' ', 'b', ' '])
      = normalize_line [' ', 'a', ' ', ' ', 'b', ' ']
    ∧ ¬ (pyWs 'a' = true ∧ pyWs ' ' = true) := by
  refine ⟨(c5_normalize_idempotent_no_runs [' ', 'a', ' ', ' ', 'b', ' ']).1, ?_⟩
  have h := (c5_normalize_idempotent_no_runs [' ', 'a', ' ', ' ', 'b', ' ']).2 0 (by decide)
  exact h

/-- Claim C6: inside an open section, the single glued line
`07Example Horse●` reconstructs at the end-of-input flush to the record
with number 7, name `Example Horse`, primary mark `●` and no secondary
mark (the Python empty-string mark is modelled as `none`). -/
theorem c6_glued_line_reconstruction :
    parse_analysis_article ['X']
      [['X', '1', 'R'],
       ['0', '7', 'E', 'x', 'a', 'm', 'p', 'l', 'e', ' ', 'H', 'o', 'r', 's', 'e', '●']]
    = [(1, [⟨7, ['E', 'x', 'a', 'm', 'p', 'l', 'e', ' ', 'H', 'o', 'r', 's', 'e'],
            some '●', none⟩])] := by
  decide

/-- Claim C9: the reconstruction is deterministic across invocations.
The only mutable state shared between invocations in the source module is
the TTL cache used by `get_umanari`; threading it explicitly, a second
call at any later time with the same body text returns a table identical
to the first call's, whether it hits the cache or recomputes. -/
theorem c9_parse_deterministic_across_cache (t1 t2 : Nat) (track : Str) (rawLines : List Str) :
    (get_umanari_model t1 none track rawLines).1
      = (get_umanari_model t2 (get_umanari_model t1 none track rawLines).2 track rawLines).1 := by
  unfold get_umanari_model
  dsimp only
  split_ifs <;> rfl

/-- Witness for claim C9 at concrete times straddling the cache TTL. -/
theorem c9_parse_deterministic_across_cache_witness :
    (get_umanari_model 0 none ['X'] [['X', '1', 'R'], ['1', '2', '3']]).1
      = (get_umanari_model 1000
          ((get_umanari_model 0 none ['X'] [['X', '1', 'R'], ['1', '2', '3']]).2)
          ['X'] [['X', '1', 'R'], ['1', '2', '3']]).1 :=
  c9_parse_deterministic_across_cache 0 1000 ['X'] [['X', '1', 'R'], ['1', '2', '3']]

/-- Claim C10: inside an open section, a line of three or more digits is
neither a number-only line nor noise: the first two digits become the new
record number and the remaining digits become the first name fragment, so
the record `{12, "3"}` is emitted; when a pending record exists it is
flushed first. -/
theorem c10_three_digit_line :
    parse_analysis_article ['X'] [['X', '1', 'R'], ['1', '2', '3']]
      = [(1, [⟨12, ['3'], none, none⟩])]
    ∧ parse_analysis_article ['X']
        [['X', '1', 'R'], ['0', '5'], ['N', 'a', 'm', 'e'], ['1', '2', '3']]
      = [(1, [⟨5, ['N', 'a', 'm', 'e'], none, none⟩, ⟨12, ['3'], none, none⟩])] := by
  exact ⟨by decide, by decide⟩

/-- Claim C1, counterexample: a Record of section 1 has been flushed
(first conjunct: the state right before the marker line holds it), yet
after the insufficiency-marker line the final table is empty — race 1 is
absent, its already-flushed Record does not remain, contradicting the
claim's second half. -/
theorem c1_counterexample :
    lookupRace (List.foldl (stepLine ['X']) initState
        [['X', '1', 'R'], ['1'], ['A'], ['2']]).races 1
      = some [⟨1, ['A'], none, none⟩]
    ∧ parse_analysis_article ['X']
        ([['X', '1', 'R'], ['1'], ['A'], ['2'], ['B']]
          ++ [['デ', 'ー', 'タ', '不', '足', 'の', '為', '解', '析', '不', '可']]) = [] := by
  exact ⟨by decide, by decide⟩

/-- Claim C1, amended: whenever an insufficiency-marker line arrives
while section N is open — before or after Records of N were flushed —
the whole entry for race N is removed from the table (fully absent, not
an empty list) and the section is closed; race N then stays absent to
the end of input (final flush included) as long as no later line
re-opens section N. -/
theorem c1_marker_voids_section (track mline : Str) (st : PState) (n : Nat) (post : List Str)
    (hopen : st.current_r = some n)
    (hnd : (st.races.map Prod.fst).Nodup)
    (hmark : hasSeq insufMarker mline = true)
    (hnotsec : secMatch track mline = none)
    (hpost : ∀ l ∈ post, ¬ secMatch track l = some n) :
    lookupRace (List.foldl (stepLine track) st (mline :: post)).races n = none
    ∧ lookupRace
        (if (List.foldl (stepLine track) st (mline :: post)).current_r.isSome
         then flush_pending (List.foldl (stepLine track) st (mline :: post))
         else List.foldl (stepLine track) st (mline :: post)).races n = none := by
  have hstep := stepLine_eq_marker hnotsec hopen hmark
  have h1 : lookupRace (stepLine track st mline).races n = none := by
    rw [hstep]
    exact lookup_popRace_self hnd
  have h2 : ¬ (stepLine track st mline).current_r = some n := by
    rw [hstep]
    simp
  have hfold := foldl_absent track post (stepLine track st mline) n hpost h1 h2
  simp only [List.foldl_cons]
  refine ⟨hfold.1, ?_⟩
  by_cases hc : (List.foldl (stepLine track) (stepLine track st mline) post).current_r.isSome
    = true
  · rw [if_pos hc]
    exact flush_pending_lookup_none hfold.1
  · rw [if_neg hc]
    exact hfold.1

/-- Witness for claim C1's amended theorem: a state holding a flushed
Record for race 1, the marker line, then a header for race 2. -/
theorem c1_marker_voids_section_witness :
    lookupRace (List.foldl (stepLine ['X'])
        (⟨[(1, [⟨1, ['A'], none, none⟩])], some 1, none, [], []⟩ : PState)
        (['デ', 'ー', 'タ', '不', '足', 'の', '為', '解', '析', '不', '可']
          :: [['X', '2', 'R']])).races 1 = none := by
  exact (c1_marker_voids_section ['X']
    ['デ', 'ー', 'タ', '不', '足', 'の', '為', '解', '析', '不', '可']
    (⟨[(1, [⟨1, ['A'], none, none⟩])], some 1, none, [], []⟩ : PState) 1
    [['X', '2', 'R']] rfl (by decide) (by decide) (by decide) (by decide)).1

/-- Claim C2: rating symbols accumulate for a pending record in
first-seen order — over any run of continuation lines the pending marks
are exactly the first two symbols of the concatenated left-to-right
symbol stream, the remainder being silently dropped (two-slot cap); the
first mark becomes `primaryMark` (`win`) and the second `secondaryMark`
(`bakusou`), as the two concrete reconstructions show: `N ▲` then `○`
across two lines gives primary `▲`, secondary `○`, and a line with four
symbols keeps only the first two. -/
theorem c2_marks_first_seen_capped :
    (∀ (track : Str) (st : PState) (ls : List Str) (r no : Nat),
      st.current_r = some r → st.pending_no = some no →
      st.pending_marks.length ≤ 2 →
      (∀ l ∈ ls, secMatch track l = none ∧ hasSeq insufMarker l = false ∧
        ¬ l = headerNoise ∧ isDigitsLine l = false ∧ numRestMatch l = none) →
      (List.foldl (stepLine track) st ls).pending_marks
          = (st.pending_marks ++ ls.flatMap extract_marks_from_text).take 2)
    ∧ parse_analysis_article ['X'] [['X', '1', 'R'], ['0', '1'], ['N', ' ', '▲'], ['○']]
        = [(1, [⟨1, ['N'], some '▲', some '○'⟩])]
    ∧ parse_analysis_article ['X']
        [['X', '1', 'R'], ['0', '1'], ['N', ' ', '◎', ' ', '○', ' ', '▲', '△']]
        = [(1, [⟨1, ['N'], some '◎', some '○'⟩])] := by
  refine ⟨?_, by decide, by decide⟩
  intro track st ls r no hr hno hlen hls
  exact (foldl_cont_marks track ls st r no hr hno hlen hls).1

/-- Witness for claim C2's accumulation statement: a pending record, a
mixed line, a symbols-only line, and a third symbol beyond the cap. -/
theorem c2_marks_first_seen_capped_witness :
    (List.foldl (stepLine ['X'])
        (⟨[(1, [])], some 1, some 5, [], []⟩ : PState)
        [['a', ' ', '▲'], ['○'], ['▲']]).pending_marks = ['▲', '○'] := by
  exact c2_marks_first_seen_capped.1 ['X']
    (⟨[(1, [])], some 1, some 5, [], []⟩ : PState)
    [['a', ' ', '▲'], ['○'], ['▲']] 1 5 rfl rfl (by decide) (by decide)

/-- Claim C3: every Record in the final table has a non-empty name (and
a number — `Record.no : Nat` is always present by construction); a flush
with no buffered number changes no table entry (no-op emission-wise);
a flush with a number but an empty reassembled name silently discards
the pending record, emitting nothing and clearing the buffered number. -/
theorem c3_emitted_records_wellformed :
    (∀ (track : Str) (rawLines : List Str) (n : Nat) (recs : List Record),
      lookupRace (parse_analysis_article track rawLines) n = some recs →
      ∀ rec ∈ recs, ¬ rec.name = [])
    ∧ (∀ st : PState, st.pending_no = none → (flush_pending st).races = st.races)
    ∧ (∀ (st : PState) (no : Nat), st.pending_no = some no →
        normalize_line (joinSp st.pending_name_parts) = [] →
        (flush_pending st).races = st.races ∧ (flush_pending st).pending_no = none) := by
  refine ⟨?_, ?_, ?_⟩
  · intro track rawLines n recs hlook rec hrec
    exact parse_names track rawLines (n, recs) (lookupRace_mem hlook) rec hrec
  · intro st h
    exact flush_pending_races_of_no_none h
  · intro st no h1 h2
    exact ⟨flush_pending_races_of_name_empty h1 h2, flush_pending_pending_no st⟩

/-- Witness for claim C3 at a concrete parse. -/
theorem c3_emitted_records_wellformed_witness :
    ¬ (Record.mk 12 ['3'] none none).name = [] := by
  exact c3_emitted_records_wellformed.1 ['X'] [['X', '1', 'R'], ['1', '2', '3']]
    1 [⟨12, ['3'], none, none⟩] (by decide) (Record.mk 12 ['3'] none none) (by decide)

/-- Claim C8: when a section-header line arrives while a section is
open, the pending record is flushed into the previously open section
first and only then is the new section opened (`setdefault` on the
post-flush table); re-opening a race number whose section already holds
flushed Records leaves them unchanged — the old list survives as a
prefix, later records appending after it. -/
theorem c8_header_flush_then_open :
    ∀ (track line : Str) (st : PState) (n r : Nat) (rs : List Record),
      secMatch track line = some n → st.current_r = some r →
      lookupRace st.races n = some rs →
      (stepLine track st line).current_r = some n
      ∧ (stepLine track st line).races = setdefaultRace (flush_pending st).races n
      ∧ ∃ tail, lookupRace (stepLine track st line).races n = some (rs ++ tail) := by
  intro track line st n r rs hsec hc hlook
  have hsome : st.current_r.isSome = true := by rw [hc]; rfl
  rw [stepLine_eq_header hsec, if_pos hsome]
  refine ⟨rfl, rfl, ?_⟩
  rcases flush_pending_races_cases st with he | ⟨r0, no, hc0, _, _, he⟩
  · rw [he, setdefaultRace_of_some hlook]
    exact ⟨[], by rw [List.append_nil]; exact hlook⟩
  · rw [he]
    by_cases hr0n : r0 = n
    · subst hr0n
      have hl2 := @lookup_appendRace_self st.races _ rs
        ⟨no, normalize_line (joinSp st.pending_name_parts),
         st.pending_marks.head?, st.pending_marks[1]?⟩ hlook
      rw [setdefaultRace_of_some hl2]
      exact ⟨_, hl2⟩
    · have hl2 : lookupRace (appendRace st.races r0
          ⟨no, normalize_line (joinSp st.pending_name_parts),
           st.pending_marks.head?, st.pending_marks[1]?⟩) n = some rs := by
        rw [lookup_appendRace_ne hr0n]
        exact hlook
      rw [setdefaultRace_of_some hl2]
      exact ⟨[], by rw [List.append_nil]; exact hl2⟩

/-- Witness for claim C8: re-opening race 1 (which holds a flushed
Record) while a pending record is buffered. -/
theorem c8_header_flush_then_open_witness :
    ∃ tail, lookupRace (stepLine ['X']
        (⟨[(1, [⟨1, ['A'], none, none⟩])], some 1, some 2, [['B']], []⟩ : PState)
        ['X', '1', 'R']).races 1
      = some ([⟨1, ['A'], none, none⟩] ++ tail) := by
  exact (c8_header_flush_then_open ['X'] ['X', '1', 'R']
    (⟨[(1, [⟨1, ['A'], none, none⟩])], some 1, some 2, [['B']], []⟩ : PState)
    1 1 [⟨1, ['A'], none, none⟩] (by decide) rfl (by decide)).2.2

/-- Claim C7: the double-top query returns exactly the races containing
at least one Record whose win mark and burst mark are both the top
symbol `◎`; at the claim's concrete table only race 11 is returned,
race 3 (with `◎`/`○`) is not. -/
theorem c7_double_top_query :
    (∀ (races : RaceTable) (n : Nat),
      (∃ hr ∈ find_gekiatsu_hits races, hr.race_no = n) ↔
      (∃ rows, (n, rows) ∈ races ∧ ∃ rec ∈ rows,
        rec.win = some '◎' ∧ rec.bakusou = some '◎'))
    ∧ (find_gekiatsu_hits [(11, [⟨1, ['A'], some '◎', some '◎'⟩]),
        (3, [⟨2, ['B'], some '◎', some '○'⟩])]).map (fun h => h.race_no) = [11] := by
  refine ⟨?_, by decide⟩
  intro races n
  unfold find_gekiatsu_hits
  dsimp only
  constructor
  · rintro ⟨hr, hmem, hrn⟩
    rw [mem_sortHits] at hmem
    rcases List.mem_filterMap.mp hmem with ⟨p, hp, hf⟩
    by_cases hemp : (gekiatsuRows p.2).isEmpty = true
    · rw [if_pos hemp] at hf
      cases hf
    · rw [if_neg hemp] at hf
      cases hf
      have hpn : p.1 = n := hrn
      refine ⟨p.2, ?_, ?_⟩
      · rw [← hpn]
        exact hp
      · have hne : ¬ gekiatsuRows p.2 = [] := fun h0 => hemp (List.isEmpty_iff.mpr h0)
        unfold gekiatsuRows at hne
        have hex : ¬ ∀ rec ∈ p.2, (if rec.win = some '◎' ∧ rec.bakusou = some '◎'
            then some (rec.no, rec.name) else (none : Option (Nat × Str))) = none := by
          intro hall
          exact hne (List.filterMap_eq_nil_iff.mpr hall)
        push_neg at hex
        rcases hex with ⟨rec, hrec, hfa⟩
        by_cases hcond : rec.win = some '◎' ∧ rec.bakusou = some '◎'
        · exact ⟨rec, hrec, hcond⟩
        · exact absurd (if_neg hcond) hfa
  · rintro ⟨rows, hmem, rec, hrec, hw, hb⟩
    refine ⟨⟨n, gekiatsuRows rows⟩, ?_, rfl⟩
    rw [mem_sortHits]
    apply List.mem_filterMap.mpr
    refine ⟨(n, rows), hmem, ?_⟩
    have hne : ¬ (gekiatsuRows rows).isEmpty = true := by
      rw [List.isEmpty_iff]
      intro hnil
      unfold gekiatsuRows at hnil
      have h0 := List.filterMap_eq_nil_iff.mp hnil rec hrec
      rw [if_pos ⟨hw, hb⟩] at h0
      cases h0
    dsimp only
    rw [if_neg hne]

/-- Witness for claim C7: the query applied at the claim's concrete
table finds race 11 through a double-top horse. -/
theorem c7_double_top_query_witness :
    ∃ rows, (11, rows) ∈ ([(11, [⟨1, ['A'], some '◎', some '◎'⟩]),
        (3, [⟨2, ['B'], some '◎', some '○'⟩])] : RaceTable)
      ∧ ∃ rec ∈ rows, rec.win = some '◎' ∧ rec.bakusou = some '◎' := by
  exact (c7_double_top_query.1 [(11, [⟨1, ['A'], some '◎', some '◎'⟩]),
    (3, [⟨2, ['B'], some '◎', some '○'⟩])] 11).mp
    ⟨⟨11, [(1, ['A'])]⟩, by decide, rfl⟩
